import Mathlib

/-!
Shallow embedding of `converter.py` (a Jupyter-notebook to knowledge-repo
converter) and proofs about the claims of its specification.

The Python program is glue code around a JSON transform.  The embedding
translates, from the source:
  * the Python string primitives the program uses (`str.split`, the `in`
    operator, `os.path.split`, `os.path.splitext`, `os.path.join`, and the
    one regular-expression match `re.match('# (.*)\n', s)` specialised to
    that fixed pattern);
  * the JSON data model (`JVal`) with Python's dict/list access semantics,
    failures represented in `Except PyErr`;
  * the converter operations `_tags_and_github_link`, `_title`,
    `_construct_header`, `_construct_github_link_cell`, `convert`, the
    output-path computation, and the filesystem effect of `add`;
  * the traversal driver `convert_all_posts` over a model filesystem tree,
    with the per-file conversion-plus-registration abstracted as a fallible
    function (its real body shells out to git and an external CLI).
External collaborators (git dates, the knowledge-repo CLI) are parameters:
the spec treats them as opaque.
-/

/-! ## Python string primitives -/

/-- Model of Python's `sub in s` substring test (on `s` given as a char list):
true iff `sub` occurs as a contiguous substring (the empty `sub` occurs in
every string). -/
def containsSub (sub : List Char) : List Char → Bool
  | [] => sub.isEmpty
  | c :: cs => sub.isPrefixOf (c :: cs) || containsSub sub cs

/-- `containsStr s sub` models Python's `sub in s` on strings. -/
def containsStr (s sub : String) : Bool :=
  containsSub sub.data s.data

/-- Worker for `pySplit`: scans the input left to right; `skip` counts
separator characters still to be consumed after a match (so the recursion is
structural), `acc` holds the current field reversed. -/
def splitGo (sep : List Char) : List Char → Nat → List Char → List (List Char)
  | [], _, acc => [acc.reverse]
  | _ :: cs, Nat.succ k, acc => splitGo sep cs k acc
  | c :: cs, 0, acc =>
    if sep.isPrefixOf (c :: cs) then
      acc.reverse :: splitGo sep cs (sep.length - 1) []
    else
      splitGo sep cs 0 (c :: acc)

/-- Model of Python's `s.split(sep)` for a non-empty separator: the fields
between non-overlapping left-to-right occurrences of `sep`. -/
def pySplit (s sep : String) : List String :=
  (splitGo sep.data s.data 0 []).map (fun l => String.mk l)

/-- Worker for `countOcc`, mirroring `splitGo`'s scan. -/
def countOccGo (sep : List Char) : List Char → Nat → Nat
  | [], _ => 0
  | _ :: cs, Nat.succ k => countOccGo sep cs k
  | c :: cs, 0 =>
    if sep.isPrefixOf (c :: cs) then
      1 + countOccGo sep cs (sep.length - 1)
    else
      countOccGo sep cs 0

/-- The number of non-overlapping left-to-right occurrences of `sep` in `s`
(Python's `s.count(sep)` for non-empty `sep`). -/
def countOcc (s sep : String) : Nat :=
  countOccGo sep.data s.data 0

/-- Model of `os.path.splitext` (posixpath): splits off the extension at the
last `'.'` of the final path component, except that leading dots of that
component never start an extension. -/
def splitext (p : String) : String × String :=
  let cs := p.data
  let base := (cs.reverse.takeWhile (fun c => c ≠ '/')).reverse
  let afterDot := base.reverse.takeWhile (fun c => c ≠ '.')
  let extLen :=
    if afterDot.length = base.length then 0
    else
      let dotIdx := base.length - afterDot.length - 1
      if (base.take dotIdx).any (fun c => c ≠ '.') then afterDot.length + 1 else 0
  (String.mk (cs.take (cs.length - extLen)), String.mk (cs.drop (cs.length - extLen)))

/-- Model of `os.path.split` (posixpath): `(head, tail)` around the last
`'/'`; the head keeps only its trailing slashes stripped unless it is all
slashes. -/
def pathSplit (p : String) : String × String :=
  let cs := p.data
  let tail := (cs.reverse.takeWhile (fun c => c ≠ '/')).reverse
  let head := cs.take (cs.length - tail.length)
  let head2 :=
    if head.isEmpty ∨ head.all (fun c => c = '/') then head
    else (head.reverse.dropWhile (fun c => c = '/')).reverse
  (String.mk head2, String.mk tail)

/-- Model of `os.path.join(p, b)` (posixpath) for two components. -/
def pathJoin (p b : String) : String :=
  if b.data.head? = some '/' then b
  else if p = "" ∨ p.data.getLast? = some '/' then p ++ b
  else p ++ "/" ++ b

/-- Model of `re.compile('# (.*)\n').match(s)`, returning `group(1)`:
the line must begin with `"# "`, the group is everything up to the first
line break (which must be present; `.` does not cross a line break). -/
def titleMatch (s : String) : Option String :=
  match s.data with
  | '#' :: ' ' :: rest =>
    if (rest.dropWhile (fun c => c ≠ '\n')).isEmpty then none
    else some (String.mk (rest.takeWhile (fun c => c ≠ '\n')))
  | _ => none


/-! ## JSON data model with Python access semantics -/

/-- Errors the embedded Python code can raise.  `unboundLocalError` stands
for referencing a local variable that was never assigned. -/
inductive PyErr where
  | keyError
  | indexError
  | typeError
  | valueError
  | unboundLocalError
  deriving DecidableEq, Repr

/-- A JSON value as `json.load` produces it (dicts keep insertion order). -/
inductive JVal where
  | null : JVal
  | bool : Bool → JVal
  | num : Int → JVal
  | str : String → JVal
  | arr : List JVal → JVal
  | obj : List (String × JVal) → JVal

/-- A notebook document: the top-level JSON mapping. -/
abbrev NbDoc := List (String × JVal)

/-- Python's `d[k]` on a top-level dict: first binding wins (a parsed JSON
dict has each key once); `KeyError` when absent. -/
def dictGet (d : NbDoc) (k : String) : Except PyErr JVal :=
  match d.find? (fun kv => kv.1 == k) with
  | some kv => .ok kv.2
  | none => .error .keyError

/-- Python's `d[k] = v` on a dict: replaces the value at an existing key in
place, otherwise appends the new binding. -/
def dictSet (d : NbDoc) (k : String) (v : JVal) : NbDoc :=
  if d.any (fun kv => kv.1 == k) then
    d.map (fun kv => if kv.1 == k then (kv.1, v) else kv)
  else
    d ++ [(k, v)]

/-- Python's `v[k]` for a string key on an arbitrary JSON value. -/
def jGet (v : JVal) (k : String) : Except PyErr JVal :=
  match v with
  | .obj kvs => dictGet kvs k
  | _ => .error .typeError

/-- Python's `v[0]`: first element of a list, first character of a string
(as a one-character string), `IndexError` when empty, `KeyError` on a dict
(`0` is not a string key), `TypeError` otherwise. -/
def pyIndex0 : JVal → Except PyErr JVal
  | .arr [] => .error .indexError
  | .arr (x :: _) => .ok x
  | .str s =>
    match s.data with
    | [] => .error .indexError
    | c :: _ => .ok (.str (String.mk [c]))
  | .obj _ => .error .keyError
  | _ => .error .typeError

/-- Python's `v == 'markdown'`: equality against a string literal is false
for every non-string value. -/
def isMarkdown (v : JVal) : Bool :=
  match v with
  | .str s => s == "markdown"
  | _ => false

/-! ## The converter's constants (class attributes of `IpynbConverter`) -/

def AUTHOR : String := "Ethen Liu"
def REPO_NAME : String := "machine-learning"
def BASE_URL : String := "https://github.com/ethen8181/"

/-! ## `_tags_and_github_link` -/

/-- `IpynbConverter._tags_and_github_link`: splits the path on the
repository name (the tuple unpacking `_, file_path = path.split(...)`
raises `ValueError` unless the split has exactly two parts), takes the bare
file name without extension as the tag, and builds the github link. -/
def tags_and_github_link (path : String) : Except PyErr (String × String) :=
  match pySplit path REPO_NAME with
  | [_, file_path] =>
    let file_name := (pathSplit file_path).2
    let tags := (splitext file_name).1
    let link := BASE_URL ++ REPO_NAME ++ "/blob/master" ++ file_path
    .ok (tags, link)
  | _ => .error .valueError

/-! ## `_title` -/

/-- The `for cell in notebook['cells']` loop of `_title`.  The accumulator
is the Python local `title`: `none` while it is still unassigned.  Returns
the value of `title` when the loop finishes without `break`, or the matched
title on `break`, or the error the loop body raises. -/
def titleLoop : List JVal → Option String → Except PyErr (Option String)
  | [], title => .ok title
  | cell :: rest, title =>
    match jGet cell "cell_type" with
    | .error e => .error e
    | .ok ct =>
      if isMarkdown ct then
        match jGet cell "source" with
        | .error e => .error e
        | .ok src =>
          match pyIndex0 src with
          | .error e => .error e
          | .ok first =>
            match first with
            | .str s =>
              match titleMatch s with
              | some t =>
                if t == "Table of Contents" then titleLoop rest (some t)
                else .ok (some t)
              | none => titleLoop rest title
            | _ => .error .typeError
      else titleLoop rest title

/-- `IpynbConverter._title`: iterates the document's cells; when the loop
ends with the local `title` never assigned, `return title` raises
`UnboundLocalError`.  Iterating a non-list `cells` value follows Python:
strings iterate per character and dicts per key (whose indexing by
`'cell_type'` then raises `TypeError`), everything else is not iterable. -/
def pyTitle (notebook : NbDoc) : Except PyErr String :=
  match dictGet notebook "cells" with
  | .error e => .error e
  | .ok (.arr cells) =>
    match titleLoop cells none with
    | .error e => .error e
    | .ok (some t) => .ok t
    | .ok none => .error .unboundLocalError
  | .ok (.str s) => if s.data.isEmpty then .error .unboundLocalError else .error .typeError
  | .ok (.obj kvs) => if kvs.isEmpty then .error .unboundLocalError else .error .typeError
  | .ok _ => .error .typeError

/-! ## `_construct_header` and `_construct_github_link_cell` -/

/-- `flatten_list`: appends list items, keeps the rest (here every item is
a plain string, so it is the identity on the header text). -/
def flatten_list (l : List (String ⊕ List String)) : List String :=
  l.foldl
    (fun flat item =>
      match item with
      | .inr xs => flat ++ xs
      | .inl s => flat ++ [s]) []

/-- The `header_text` literal of `_construct_header` before flattening. -/
def headerTextRaw (title tags created updated : String) : List (String ⊕ List String) :=
  [.inl "---",
   .inl ("title: " ++ title),
   .inl "authors:",
   .inl ("- " ++ AUTHOR),
   .inl "tags:",
   .inl ("- " ++ tags),
   .inl ("created_at: " ++ created),
   .inl ("updated_at: " ++ updated),
   .inl "tldr: Nothing for tldr section as of now.",
   .inl "---"]

/-- The header's final source lines:
`[text + '\n' for text in header_text[:-1]] + [header_text[-1]]`
(the list is statically non-empty, so the `[-1]` index cannot fail). -/
def headerLines (title tags created updated : String) : List String :=
  let header_text := flatten_list (headerTextRaw title tags created updated)
  (header_text.dropLast.map (fun text => text ++ "\n")) ++ [header_text.getLastD ""]

/-- `IpynbConverter._construct_header`: a raw cell with empty metadata
whose source is the delimited key-value block. -/
def construct_header (title tags created updated : String) : JVal :=
  .obj [("cell_type", .str "raw"),
        ("metadata", .obj []),
        ("source", .arr ((headerLines title tags created updated).map .str))]

/-- `IpynbConverter._construct_github_link_cell`. -/
def construct_github_link_cell (github_link : String) : JVal :=
  .obj [("cell_type", .str "markdown"),
        ("metadata", .obj []),
        ("source", .arr [.str ("Link to original notebook: " ++ github_link)])]

/-! ## `convert` and the output path -/

/-- Lines 131-136 of `convert`: the output path is the input path when
in-place, otherwise the input path with `'-converted'` inserted before the
extension. -/
def outPath (inplace : Bool) (path : String) : String :=
  if inplace then path
  else
    let he := splitext path
    (he.1 ++ "-converted") ++ he.2

/-- `IpynbConverter.convert`, with the two git dates (outputs of the
external version-control queries, already formatted) as parameters: derives
tag and link from the path, extracts the title, prepends the header cell and
the github-link cell to `cells`, and computes the output path.  Every error
the Python code would raise propagates. -/
def convert (inplace : Bool) (date_created date_updated path : String)
    (notebook : NbDoc) : Except PyErr (NbDoc × String) :=
  match tags_and_github_link path with
  | .error e => .error e
  | .ok tl =>
    match pyTitle notebook with
    | .error e => .error e
    | .ok title =>
      match dictGet notebook "cells" with
      | .error e => .error e
      | .ok (.arr cells) =>
        let nb2 := dictSet notebook "cells"
          (.arr ([construct_header title tl.1 date_created date_updated,
                  construct_github_link_cell tl.2] ++ cells))
        .ok (nb2, outPath inplace path)
      | .ok _ => .error .typeError

/-! ## The filesystem effect of `add` -/

/-- A model filesystem: path to file contents. -/
abbrev FS := String → Option String

def fsWrite (fs : FS) (p content : String) : FS :=
  fun q => if q = p then some content else fs q

def fsRemove (fs : FS) (p : String) : FS :=
  fun q => if q = p then none else fs q

/-- The filesystem effect of `IpynbConverter.add`: serialize the notebook to
`self._path`, invoke the external CLI (whose reported result `cmdOutput` the
code never inspects), then delete the serialized file unless in-place. -/
def addFS (inplace : Bool) (self_path serialized : String) (cmdOutput : Bool)
    (fs : FS) : FS :=
  let fs1 := fsWrite fs self_path serialized
  let _ := cmdOutput
  if inplace then fs1 else fsRemove fs1 self_path


/-! ## The traversal driver `convert_all_posts` -/

/-- What the driver does with one eligible file: registers it, or (when the
per-file try block raises) logs a skip carrying that file's path. -/
inductive Event where
  | registered (path : String)
  | skipped (path : String) (e : PyErr)

def eventPath : Event → String
  | .registered p => p
  | .skipped p _ => p

def isRegistered : Event → Bool
  | .registered _ => true
  | _ => false

def isSkipped : Event → Bool
  | .skipped _ _ => true
  | _ => false

/-! A model filesystem tree: `os.path.isdir` distinguishes directories
(with named children, in `os.listdir` order) from regular files. -/
mutual
inductive FSEntry where
  | file : FSEntry
  | dir (children : FSChildren) : FSEntry
inductive FSChildren where
  | nil : FSChildren
  | cons (name : String) (entry : FSEntry) (rest : FSChildren) : FSChildren
end

/-! `convert_all_posts`, with the per-file body of the `try` block
(`IpynbConverter(...).convert(path)` then `.add(notebook)`, whose real body
also shells out to git and the external CLI) abstracted as `conv`:
directories recurse into each child; a regular file is handled only when its
path does not contain `'-converted'` and its extension is `.ipynb`; an error
from `conv` is caught and logged as a skip with the file's path. -/
mutual
def convert_all_posts (conv : String → Except PyErr Unit) (path : String) :
    FSEntry → List Event
  | .dir children => walkChildren conv path children
  | .file =>
    if containsStr path "-converted" then []
    else if (splitext path).2 = ".ipynb" then
      match conv path with
      | .ok _ => [.registered path]
      | .error e => [.skipped path e]
    else []
def walkChildren (conv : String → Except PyErr Unit) (path : String) :
    FSChildren → List Event
  | .nil => []
  | .cons name entry rest =>
    convert_all_posts conv (pathJoin path name) entry ++ walkChildren conv path rest
end

/-! ## Spec-side description of title extraction

The spec describes title extraction as: scan cells in order, consider only
markdown cells, inspect only the first source line, match the level-1
heading pattern, and take the first match whose text is not exactly
`'Table of Contents'`.  These definitions follow those words (not the code)
so the code's `pyTitle` can be compared against them. -/

/-- The heading text a cell offers under the spec's reading: present only
when the cell is a markdown cell and its first source line matches the
pattern. -/
def specCellMatch (cell : JVal) : Option String :=
  match cell with
  | .obj kvs =>
    match kvs.find? (fun kv => kv.1 == "cell_type") with
    | some (_, .str ct) =>
      if ct = "markdown" then
        match kvs.find? (fun kv => kv.1 == "source") with
        | some (_, .arr (.str s :: _)) => titleMatch s
        | _ => none
      else none
    | _ => none
  | _ => none

/-- The first non-`'Table of Contents'` heading match, in cell order. -/
def specTitle (cells : List JVal) : Option String :=
  cells.findSome? (fun c =>
    match specCellMatch c with
    | some t => if t = "Table of Contents" then none else some t
    | none => none)

/-- Does some cell match with text exactly `'Table of Contents'`? -/
def hasToC (cells : List JVal) : Bool :=
  cells.any (fun c =>
    match specCellMatch c with
    | some t => t = "Table of Contents"
    | none => false)

/-- A cell the `_title` loop can process without raising: it is a mapping
with a `cell_type` key, and when that type is the markdown tag its `source`
is a list whose first element is a string. -/
def wfCell (cell : JVal) : Bool :=
  match cell with
  | .obj kvs =>
    match kvs.find? (fun kv => kv.1 == "cell_type") with
    | some kv =>
      if isMarkdown kv.2 then
        match kvs.find? (fun kv => kv.1 == "source") with
        | some (_, .arr (.str _ :: _)) => true
        | _ => false
      else true
    | none => false
  | _ => false

def wfCells (cells : List JVal) : Bool :=
  cells.all wfCell

/-! ## Concrete fixtures for witnesses and counterexamples -/

/-- A markdown cell whose source has the given single line. -/
def mdCell (firstLine : String) : JVal :=
  .obj [("cell_type", .str "markdown"), ("metadata", .obj []),
        ("source", .arr [.str firstLine])]

/-- A code cell (never considered by title extraction). -/
def codeCell : JVal :=
  .obj [("cell_type", .str "code"), ("metadata", .obj []),
        ("source", .arr [.str "x = 1"])]

def goodPath : String := "/Users/ethen/machine-learning/trees/decision_tree.ipynb"

/-- A notebook whose first markdown cell is an auto-generated table of
contents and whose second carries the real title. -/
def nbToc : NbDoc :=
  [("cells", .arr [mdCell "# Table of Contents\n", mdCell "# Real Title\n"]),
   ("nbformat", .num 4)]

/-- A notebook none of whose cells carries a level-1 heading. -/
def nbNoHeading : NbDoc :=
  [("cells", .arr [codeCell]), ("nbformat", .num 4)]

/-- A well-formed notebook with one titled markdown cell. -/
def nbGood : NbDoc :=
  [("cells", .arr [mdCell "# Real Title\n"]), ("nbformat", .num 4)]

/-- A notebook whose real title precedes a table-of-contents heading. -/
def nbRealThenToc : NbDoc :=
  [("cells", .arr [mdCell "# Real Title\n", mdCell "# Table of Contents\n"])]

/-- A notebook whose only heading is the table of contents. -/
def nbOnlyToc : NbDoc :=
  [("cells", .arr [mdCell "# Table of Contents\n", codeCell])]


def demoRoot : String := "/Users/ethen/ml"
def demoTree : FSEntry := .dir (.cons "bad.ipynb" .file (.cons "good.ipynb" .file .nil))
def demoConv : String → Except PyErr Unit :=
  fun p => if p = "/Users/ethen/ml/bad.ipynb" then .error .valueError else .ok ()

/-! ## Remaining fixtures -/

/-- A notebook with an empty cell list (so no heading can match). -/
def nbEmptyCells : NbDoc := [("cells", .arr []), ("nbformat", .num 4)]

/-- The document `convert` produces from `nbGood` at `goodPath`. -/
def nbGoodOut : NbDoc :=
  dictSet nbGood "cells"
    (.arr ([construct_header "Real Title" "decision_tree" "2019-01-01" "2019-01-02",
            construct_github_link_cell
              "https://github.com/ethen8181/machine-learning/blob/master/trees/decision_tree.ipynb"]
           ++ [mdCell "# Real Title\n"]))


/-! ## Sanity checks: the embedding evaluated on concrete inputs -/

example : pySplit "/Users/ethen/machine-learning/trees/decision_tree.ipynb" "machine-learning"
    = ["/Users/ethen/", "/trees/decision_tree.ipynb"] := rfl
example : pySplit "machine-learningmachine-learning" "machine-learning" = ["", "", ""] := rfl
example : countOcc "/Users/ethen/machine-learning/a.ipynb" "machine-learning" = 1 := rfl
example : splitext "/a/b/c.ipynb" = ("/a/b/c", ".ipynb") := rfl
example : splitext ".bashrc" = (".bashrc", "") := rfl
example : splitext "a.tar.gz" = ("a.tar", ".gz") := rfl
example : pathSplit "/trees/decision_tree.ipynb" = ("/trees", "decision_tree.ipynb") := rfl
example : titleMatch "# Real Title\nmore" = some "Real Title" := rfl
example : titleMatch "## Sub\n" = none := rfl
example : titleMatch "# no newline" = none := rfl
example : containsStr "/a/b-converted.ipynb" "-converted" = true := rfl
example : containsStr "/a/b.ipynb" "-converted" = false := rfl

example : outPath false "/a/b/c.ipynb" = "/a/b/c-converted.ipynb" := rfl
example : outPath true "/a/b/c.ipynb" = "/a/b/c.ipynb" := rfl
example : tags_and_github_link "/Users/ethen/machine-learning/trees/decision_tree.ipynb"
    = .ok ("decision_tree",
      "https://github.com/ethen8181/machine-learning/blob/master/trees/decision_tree.ipynb") := rfl
example : tags_and_github_link "/Users/ethen/notes/a.ipynb" = .error .valueError := rfl

example : pyTitle nbToc = .ok "Real Title" := rfl
example : pyTitle nbNoHeading = .error .unboundLocalError := rfl
example : pyTitle nbRealThenToc = .ok "Real Title" := rfl
example : pyTitle nbOnlyToc = .ok "Table of Contents" := rfl
example : convert false "2019-01-01" "2019-01-02" goodPath nbNoHeading
    = .error .unboundLocalError := rfl

example : convert_all_posts demoConv demoRoot demoTree
    = [.skipped "/Users/ethen/ml/bad.ipynb" .valueError,
       .registered "/Users/ethen/ml/good.ipynb"] := rfl


/-! ## Helper lemmas: dictionary update -/

/-- The replacement map of `dictSet` keeps every key. -/
theorem replace_comp_fst (k k' : String) (v : JVal) :
    ((fun kv : String × JVal => kv.1 == k') ∘
      (fun kv => if kv.1 == k then (kv.1, v) else kv))
      = (fun kv : String × JVal => kv.1 == k') := by
  funext kv
  by_cases h : kv.1 == k <;> simp [h, Function.comp]

theorem find_replace_self (d : NbDoc) (k : String) (v : JVal)
    (hany : d.any (fun kv => kv.1 == k) = true) :
    (d.map (fun kv => if kv.1 == k then (kv.1, v) else kv)).find?
      (fun kv => kv.1 == k) = some (k, v) := by
  rw [List.find?_map, replace_comp_fst k k v]
  obtain ⟨kv0, hmem, hp⟩ := List.any_eq_true.mp hany
  have hsome : (d.find? (fun kv => kv.1 == k)).isSome := by
    rw [List.find?_isSome]
    exact ⟨kv0, hmem, hp⟩
  obtain ⟨kv1, hkv1⟩ := Option.isSome_iff_exists.mp hsome
  have hk1 : kv1.1 = k := by
    have := List.find?_some hkv1
    simpa using this
  rw [hkv1]
  simp [hk1]

theorem find_replace_other (d : NbDoc) (k k' : String) (v : JVal)
    (hne : k' ≠ k) :
    (d.map (fun kv => if kv.1 == k then (kv.1, v) else kv)).find?
      (fun kv => kv.1 == k') = d.find? (fun kv => kv.1 == k') := by
  rw [List.find?_map, replace_comp_fst k k' v]
  cases hfind : d.find? (fun kv => kv.1 == k') with
  | none => rfl
  | some kv1 =>
    have hk1 : kv1.1 = k' := by
      have := List.find?_some hfind
      simpa using this
    have hk1k : (kv1.1 == k) = false := by
      rw [beq_eq_false_iff_ne, hk1]
      exact hne
    simp only [Option.map_some', hk1k]
    rfl

theorem dictGet_dictSet_self (d : NbDoc) (k : String) (v : JVal) :
    dictGet (dictSet d k v) k = .ok v := by
  unfold dictSet
  by_cases hany : d.any (fun kv => kv.1 == k) = true
  · rw [if_pos hany]
    unfold dictGet
    rw [find_replace_self d k v hany]
  · rw [if_neg hany]
    unfold dictGet
    rw [List.find?_append]
    have h1 : d.find? (fun kv => kv.1 == k) = none := by
      rw [List.find?_eq_none]
      intro x hx hpx
      exact hany (List.any_eq_true.mpr ⟨x, hx, hpx⟩)
    rw [h1]
    simp [List.find?]

theorem dictGet_dictSet_other (d : NbDoc) (k k' : String) (v : JVal)
    (hne : k' ≠ k) : dictGet (dictSet d k v) k' = dictGet d k' := by
  unfold dictSet
  by_cases hany : d.any (fun kv => kv.1 == k) = true
  · rw [if_pos hany]
    unfold dictGet
    rw [find_replace_other d k k' v hne]
  · rw [if_neg hany]
    unfold dictGet
    rw [List.find?_append]
    have h2 : ((k, v).1 == k') = false := by
      simp; exact fun hc => hne hc.symm
    cases hfind : d.find? (fun kv => kv.1 == k') with
    | some kv => simp
    | none => simp [List.find?, h2]

/-! ## Helper lemmas: the title loop against the spec's scan -/

/-- One step of `_title`'s loop on a readable cell: it behaves exactly as
the spec's per-cell match describes, with the table-of-contents text bound
to the local and skipped. -/
theorem titleLoop_cons (c : JVal) (rest : List JVal) (acc : Option String)
    (h : wfCell c = true) :
    titleLoop (c :: rest) acc =
      match specCellMatch c with
      | some t =>
        if t = "Table of Contents" then titleLoop rest (some t) else .ok (some t)
      | none => titleLoop rest acc := by
  cases c with
  | null => simp [wfCell] at h
  | bool b => simp [wfCell] at h
  | num n => simp [wfCell] at h
  | str s => simp [wfCell] at h
  | arr l => simp [wfCell] at h
  | obj kvs =>
    cases hct : kvs.find? (fun kv => kv.1 == "cell_type") with
    | none => simp [wfCell, hct] at h
    | some kv =>
      obtain ⟨k1, v1⟩ := kv
      cases v1 with
      | str ct =>
        by_cases hmd : ct = "markdown"
        · subst hmd
          cases hsrc : kvs.find? (fun kv => kv.1 == "source") with
          | none => simp [wfCell, hct, hsrc, isMarkdown] at h
          | some kv2 =>
            obtain ⟨k2, v2⟩ := kv2
            cases v2 with
            | arr l =>
              cases l with
              | nil => simp [wfCell, hct, hsrc, isMarkdown] at h
              | cons x xs =>
                cases x with
                | str s =>
                  simp only [titleLoop, specCellMatch, jGet, dictGet, hct, hsrc,
                    isMarkdown, pyIndex0, beq_self_eq_true, if_true]
                  cases titleMatch s with
                  | none => rfl
                  | some t =>
                    by_cases ht : t = "Table of Contents" <;> simp [ht]
                | null => simp [wfCell, hct, hsrc, isMarkdown] at h
                | bool b => simp [wfCell, hct, hsrc, isMarkdown] at h
                | num n => simp [wfCell, hct, hsrc, isMarkdown] at h
                | arr l2 => simp [wfCell, hct, hsrc, isMarkdown] at h
                | obj kvs2 => simp [wfCell, hct, hsrc, isMarkdown] at h
            | null => simp [wfCell, hct, hsrc, isMarkdown] at h
            | bool b => simp [wfCell, hct, hsrc, isMarkdown] at h
            | num n => simp [wfCell, hct, hsrc, isMarkdown] at h
            | str s2 => simp [wfCell, hct, hsrc, isMarkdown] at h
            | obj kvs2 => simp [wfCell, hct, hsrc, isMarkdown] at h
        · simp [titleLoop, specCellMatch, jGet, dictGet, hct, isMarkdown, hmd]
      | null => simp [titleLoop, specCellMatch, jGet, dictGet, hct, isMarkdown]
      | bool b => simp [titleLoop, specCellMatch, jGet, dictGet, hct, isMarkdown]
      | num n => simp [titleLoop, specCellMatch, jGet, dictGet, hct, isMarkdown]
      | arr l => simp [titleLoop, specCellMatch, jGet, dictGet, hct, isMarkdown]
      | obj kvs2 => simp [titleLoop, specCellMatch, jGet, dictGet, hct, isMarkdown]

/-- The whole `_title` loop on readable cells: it returns the spec's first
non-table-of-contents match when one exists; otherwise the local ends up
holding `'Table of Contents'` when some cell matched with that text, and
stays at its initial state when nothing matched at all. -/
theorem titleLoop_spec : ∀ (cells : List JVal), wfCells cells = true →
    ∀ acc, titleLoop cells acc =
      .ok (match specTitle cells with
        | some t => some t
        | none => if hasToC cells then some "Table of Contents" else acc) := by
  intro cells
  induction cells with
  | nil => intro _ acc; simp [titleLoop, specTitle, hasToC]
  | cons c rest ih =>
    intro h acc
    have hc : wfCell c = true := by
      have h2 := h
      simp only [wfCells, List.all_cons, Bool.and_eq_true] at h2
      exact h2.1
    have hrest : wfCells rest = true := by
      have h2 := h
      simp only [wfCells, List.all_cons, Bool.and_eq_true] at h2
      exact h2.2
    rw [titleLoop_cons c rest acc hc]
    cases hm : specCellMatch c with
    | none =>
      rw [ih hrest acc]
      have hst : specTitle (c :: rest) = specTitle rest := by
        simp [specTitle, List.findSome?_cons, hm]
      have htc : hasToC (c :: rest) = hasToC rest := by
        simp [hasToC, List.any_cons, hm]
      rw [hst, htc]
    | some t =>
      dsimp only
      by_cases ht : t = "Table of Contents"
      · subst ht
        rw [if_pos rfl, ih hrest (some "Table of Contents")]
        have hst : specTitle (c :: rest) = specTitle rest := by
          simp [specTitle, List.findSome?_cons, hm]
        have htc : hasToC (c :: rest) = true := by
          simp [hasToC, List.any_cons, hm]
        rw [hst, htc]
        cases specTitle rest with
        | some t2 => simp
        | none => cases hasToC rest <;> simp
      · rw [if_neg ht]
        have hst : specTitle (c :: rest) = some t := by
          simp [specTitle, List.findSome?_cons, hm, ht]
        rw [hst]

/-- `_title` on a document whose cells are readable, characterised by the
spec-side scan. -/
theorem pyTitle_eq (nb : NbDoc) (cells : List JVal)
    (hc : dictGet nb "cells" = .ok (.arr cells)) (hwf : wfCells cells = true) :
    pyTitle nb =
      match specTitle cells with
      | some t => .ok t
      | none =>
        if hasToC cells then .ok "Table of Contents"
        else .error .unboundLocalError := by
  unfold pyTitle
  rw [hc]
  dsimp only
  rw [titleLoop_spec cells hwf none]
  cases specTitle cells with
  | some t => rfl
  | none => cases htc : hasToC cells <;> simp

/-- When no cell matches at all, the spec-side scan finds nothing and no
cell carries the table-of-contents text. -/
theorem noMatch_specTitle (cells : List JVal)
    (h : cells.all (fun c => (specCellMatch c).isNone) = true) :
    specTitle cells = none ∧ hasToC cells = false := by
  induction cells with
  | nil => simp [specTitle, hasToC]
  | cons c rest ih =>
    simp only [List.all_cons, Bool.and_eq_true] at h
    have hcm : specCellMatch c = none := by
      cases hx : specCellMatch c with
      | none => rfl
      | some t => rw [hx] at h; simp at h
    obtain ⟨ih1, ih2⟩ := ih h.2
    constructor
    · unfold specTitle at ih1 ⊢
      simp only [List.findSome?_cons, hcm]
      exact ih1
    · unfold hasToC at ih2 ⊢
      simp only [List.any_cons, hcm]
      simpa using ih2

/-! ## Helper lemmas: split fields versus occurrence count -/

/-- The split always produces one more field than there are separator
occurrences. -/
theorem splitGo_length (sep : List Char) :
    ∀ (l : List Char) (k : Nat) (acc : List Char),
      (splitGo sep l k acc).length = countOccGo sep l k + 1 := by
  intro l
  induction l with
  | nil => intro k acc; simp [splitGo, countOccGo]
  | cons c cs ih =>
    intro k acc
    cases k with
    | zero =>
      by_cases hp : sep.isPrefixOf (c :: cs)
      · simp only [splitGo, countOccGo, hp, if_true, List.length_cons, ih]
        omega
      · simp only [splitGo, countOccGo, hp, Bool.false_eq_true, if_false, ih]
    | succ k => simp only [splitGo, countOccGo, ih]

theorem pySplit_length (path : String) :
    (pySplit path REPO_NAME).length = countOcc path REPO_NAME + 1 := by
  unfold pySplit countOcc
  rw [List.length_map]
  exact splitGo_length REPO_NAME.data path.data 0 []

/-! ## Helper lemmas: the traversal driver -/

/-- The driver produces the same files, in the same order, whatever the
per-file conversion does: an error on one file never aborts the walk. -/
theorem walk_paths_stable (conv1 conv2 : String → Except PyErr Unit)
    (entry : FSEntry) :
    ∀ path, (convert_all_posts conv1 path entry).map eventPath
      = (convert_all_posts conv2 path entry).map eventPath :=
  @FSEntry.rec
    (fun e => ∀ path, (convert_all_posts conv1 path e).map eventPath
      = (convert_all_posts conv2 path e).map eventPath)
    (fun ch => ∀ path, (walkChildren conv1 path ch).map eventPath
      = (walkChildren conv2 path ch).map eventPath)
    (fun path => by
      simp only [convert_all_posts]
      by_cases h1 : containsStr path "-converted"
      · simp [h1]
      · by_cases h2 : (splitext path).2 = ".ipynb"
        · simp only [h1, Bool.false_eq_true, if_false, h2, if_true]
          cases conv1 path <;> cases conv2 path <;> simp [eventPath]
        · simp [h1, h2])
    (fun ch ih path => by
      simp only [convert_all_posts]
      exact ih path)
    (fun _ => rfl)
    (fun name e rest ih1 ih2 path => by
      simp only [walkChildren, List.map_append, ih1, ih2])
    entry

/-- Every event the driver emits concerns a file whose path avoids the
converted marker and carries the notebook extension. -/
theorem walk_events_eligible (conv : String → Except PyErr Unit)
    (entry : FSEntry) :
    ∀ path ev, ev ∈ convert_all_posts conv path entry →
      containsStr (eventPath ev) "-converted" = false
      ∧ (splitext (eventPath ev)).2 = ".ipynb" :=
  @FSEntry.rec
    (fun e => ∀ path ev, ev ∈ convert_all_posts conv path e →
      containsStr (eventPath ev) "-converted" = false
      ∧ (splitext (eventPath ev)).2 = ".ipynb")
    (fun ch => ∀ path ev, ev ∈ walkChildren conv path ch →
      containsStr (eventPath ev) "-converted" = false
      ∧ (splitext (eventPath ev)).2 = ".ipynb")
    (fun path ev hev => by
      simp only [convert_all_posts] at hev
      by_cases h1 : containsStr path "-converted"
      · simp [h1] at hev
      · by_cases h2 : (splitext path).2 = ".ipynb"
        · simp only [h1, Bool.false_eq_true, if_false, h2, if_true] at hev
          have hb : containsStr path "-converted" = false := by
            cases hx : containsStr path "-converted"
            · rfl
            · exact absurd hx h1
          cases hcv : conv path with
          | ok u => rw [hcv] at hev; simp at hev; subst hev; exact ⟨hb, h2⟩
          | error e => rw [hcv] at hev; simp at hev; subst hev; exact ⟨hb, h2⟩
        · simp [h1, h2] at hev)
    (fun ch ih path ev hev => by
      simp only [convert_all_posts] at hev
      exact ih path ev hev)
    (fun path ev hev => by simp [walkChildren] at hev)
    (fun name e rest ih1 ih2 path ev hev => by
      simp only [walkChildren, List.mem_append] at hev
      cases hev with
      | inl hl => exact ih1 (pathJoin path name) ev hl
      | inr hr => exact ih2 path ev hr)
    entry

/-- The output path of `convert` ties back to `outPath`. -/
theorem convert_out (inplace : Bool) (dc du path : String) (nb nb2 : NbDoc)
    (out : String) (hok : convert inplace dc du path nb = .ok (nb2, out)) :
    out = outPath inplace path := by
  unfold convert at hok
  cases htl : tags_and_github_link path with
  | error e => rw [htl] at hok; exact absurd hok (by simp)
  | ok tl =>
    rw [htl] at hok
    dsimp only at hok
    cases hti : pyTitle nb with
    | error e => rw [hti] at hok; exact absurd hok (by simp)
    | ok title =>
      rw [hti] at hok
      dsimp only at hok
      cases hcv : dictGet nb "cells" with
      | error e => rw [hcv] at hok; exact absurd hok (by simp)
      | ok cv =>
        rw [hcv] at hok
        cases cv with
        | arr cells =>
          dsimp only at hok
          simp only [Except.ok.injEq, Prod.mk.injEq] at hok
          exact hok.2.symm
        | null => exact absurd hok (by simp)
        | bool b => exact absurd hok (by simp)
        | num n => exact absurd hok (by simp)
        | str s => exact absurd hok (by simp)
        | obj kvs => exact absurd hok (by simp)

/-! ## The claims -/

/-- C1 (counterexample): a document with a `cells` list on which `convert`
does not return a document at all: with no markdown heading anywhere,
title extraction raises and conversion aborts. -/
theorem c1_counterexample :
    dictGet nbEmptyCells "cells" = .ok (.arr [])
    ∧ convert false "2019-01-01" "2019-01-02" goodPath nbEmptyCells
        = .error .unboundLocalError :=
  ⟨rfl, rfl⟩

/-- C1 (amended): whenever `convert` does return a document, that document's
`cells` sequence is the constructed metadata cell, then the github-link
cell, then the original cells in their original order, and every other
top-level field is unchanged. -/
theorem c1_cells_prepend (inplace : Bool) (dc du path : String) (nb nb2 : NbDoc)
    (out : String) (cells : List JVal)
    (hok : convert inplace dc du path nb = .ok (nb2, out))
    (hc : dictGet nb "cells" = .ok (.arr cells)) :
    (∃ title tl, pyTitle nb = .ok title ∧ tags_and_github_link path = .ok tl ∧
      dictGet nb2 "cells" = .ok (.arr
        ([construct_header title tl.1 dc du, construct_github_link_cell tl.2]
         ++ cells)))
    ∧ ∀ k, k ≠ "cells" → dictGet nb2 k = dictGet nb k := by
  unfold convert at hok
  cases htl : tags_and_github_link path with
  | error e => rw [htl] at hok; exact absurd hok (by simp)
  | ok tl =>
    rw [htl] at hok
    dsimp only at hok
    cases hti : pyTitle nb with
    | error e => rw [hti] at hok; exact absurd hok (by simp)
    | ok title =>
      rw [hti] at hok
      dsimp only at hok
      rw [hc] at hok
      dsimp only at hok
      simp only [Except.ok.injEq, Prod.mk.injEq] at hok
      obtain ⟨hnb2, _⟩ := hok
      subst hnb2
      refine ⟨⟨title, tl, rfl, rfl, ?_⟩, ?_⟩
      · exact dictGet_dictSet_self nb "cells" _
      · intro k hk
        exact dictGet_dictSet_other nb "cells" k _ hk

/-- C1 (witness): the amended statement at a concrete well-formed notebook
and path. -/
theorem c1_witness :
    (∃ title tl, pyTitle nbGood = .ok title
      ∧ tags_and_github_link goodPath = .ok tl
      ∧ dictGet nbGoodOut "cells" = .ok (.arr
          ([construct_header title tl.1 "2019-01-01" "2019-01-02",
            construct_github_link_cell tl.2] ++ [mdCell "# Real Title\n"])))
    ∧ ∀ k, k ≠ "cells" → dictGet nbGoodOut k = dictGet nbGood k :=
  c1_cells_prepend false "2019-01-01" "2019-01-02" goodPath nbGood nbGoodOut
    "/Users/ethen/machine-learning/trees/decision_tree-converted.ipynb"
    [mdCell "# Real Title\n"] rfl rfl

/-- C2: title extraction scans cells in order, considers only markdown
cells, inspects only the first source line, matches the level-1 heading
pattern, skips a match whose text is exactly `'Table of Contents'`, and
returns the first non-table-of-contents match (the spec-side scan
`specTitle`) as the title. -/
theorem c2_title_first_non_toc (nb : NbDoc) (cells : List JVal) (t : String)
    (hc : dictGet nb "cells" = .ok (.arr cells))
    (hwf : wfCells cells = true)
    (hs : specTitle cells = some t) :
    pyTitle nb = .ok t := by
  rw [pyTitle_eq nb cells hc hwf, hs]

/-- C2 (witness): the claim's own example, a table-of-contents cell
followed by the real title. -/
theorem c2_witness : pyTitle nbToc = .ok "Real Title" :=
  c2_title_first_non_toc nbToc
    [mdCell "# Table of Contents\n", mdCell "# Real Title\n"] "Real Title"
    rfl rfl rfl

/-- C3 (counterexample): a notebook whose only cell is a code cell, so no
markdown first line matches; conversion does not proceed to a degraded
header, it aborts with an unbound-local error. -/
theorem c3_counterexample :
    dictGet nbNoHeading "cells" = .ok (.arr [codeCell])
    ∧ specCellMatch codeCell = none
    ∧ convert false "2019-01-01" "2019-01-02" goodPath nbNoHeading
        = .error .unboundLocalError :=
  ⟨rfl, rfl, rfl⟩

/-- C3 (amended): for every notebook in which no markdown cell's first
source line matches the heading pattern, conversion raises the
unbound-local error from title extraction (caught and logged by the
traversal driver); no header is produced. -/
theorem c3_no_heading_raises (inplace : Bool) (dc du path : String)
    (tl : String × String) (nb : NbDoc) (cells : List JVal)
    (htl : tags_and_github_link path = .ok tl)
    (hc : dictGet nb "cells" = .ok (.arr cells))
    (hwf : wfCells cells = true)
    (hnm : cells.all (fun c => (specCellMatch c).isNone) = true) :
    convert inplace dc du path nb = .error .unboundLocalError := by
  obtain ⟨h1, h2⟩ := noMatch_specTitle cells hnm
  have hti : pyTitle nb = .error .unboundLocalError := by
    rw [pyTitle_eq nb cells hc hwf, h1, h2]
    simp
  unfold convert
  rw [htl]
  dsimp only
  rw [hti]

/-- C3 (witness): the amended statement at a concrete notebook with an
empty cell list. -/
theorem c3_witness :
    convert false "2019-01-01" "2019-01-02" goodPath nbEmptyCells
      = .error .unboundLocalError :=
  c3_no_heading_raises false "2019-01-01" "2019-01-02" goodPath
    ("decision_tree",
     "https://github.com/ethen8181/machine-learning/blob/master/trees/decision_tree.ipynb")
    nbEmptyCells [] rfl rfl rfl rfl

/-- C4: the constructed metadata cell is a raw cell with empty metadata
whose source block has exactly 10 lines (8 content lines between two
delimiter lines), begins and ends with the delimiter marker, carries the
fields in order title, authors, tags, created_at, updated_at, tldr, and
every line except the last carries a trailing line break. -/
theorem c4_header_shape (title tags created updated : String) :
    construct_header title tags created updated =
      .obj [("cell_type", .str "raw"), ("metadata", .obj []),
            ("source", .arr ((headerLines title tags created updated).map .str))]
    ∧ headerLines title tags created updated =
        (["---", "title: " ++ title, "authors:", "- " ++ AUTHOR, "tags:",
          "- " ++ tags, "created_at: " ++ created, "updated_at: " ++ updated,
          "tldr: Nothing for tldr section as of now."].map
            (fun text => text ++ "\n")) ++ ["---"]
    ∧ (headerLines title tags created updated).length = 10
    ∧ (headerLines title tags created updated).head? = some ("---" ++ "\n")
    ∧ (headerLines title tags created updated).getLast? = some "---"
    ∧ ∀ line ∈ (headerLines title tags created updated).dropLast,
        ∃ text, line = text ++ "\n" := by
  refine ⟨rfl, rfl, rfl, rfl, rfl, ?_⟩
  intro line hline
  rw [show (headerLines title tags created updated).dropLast
      = (["---", "title: " ++ title, "authors:", "- " ++ AUTHOR, "tags:",
          "- " ++ tags, "created_at: " ++ created, "updated_at: " ++ updated,
          "tldr: Nothing for tldr section as of now."].map
            (fun text => text ++ "\n")) from rfl] at hline
  obtain ⟨text, _, htext⟩ := List.mem_map.mp hline
  exact ⟨text, htext.symm⟩

/-- C5: an error while converting a single file is caught and logged as a
skip with that file's path, and never aborts the traversal: the walk visits
the same files in the same order whatever the per-file outcomes are; for
the concrete directory holding one malformed and one well-formed notebook,
the run yields exactly one registration and one logged skip. -/
theorem c5_error_isolated :
    (∀ conv1 conv2 path entry,
      (convert_all_posts conv1 path entry).map eventPath
        = (convert_all_posts conv2 path entry).map eventPath)
    ∧ (∀ conv path e, conv path = .error e →
        containsStr path "-converted" = false → (splitext path).2 = ".ipynb" →
        convert_all_posts conv path .file = [.skipped path e])
    ∧ ((convert_all_posts demoConv demoRoot demoTree).filter isRegistered).length = 1
    ∧ ((convert_all_posts demoConv demoRoot demoTree).filter isSkipped).length = 1 := by
  refine ⟨fun conv1 conv2 path entry => walk_paths_stable conv1 conv2 entry path,
    ?_, rfl, rfl⟩
  intro conv path e hconv hmark hext
  simp only [convert_all_posts, hmark, Bool.false_eq_true, if_false, hext,
    if_true, hconv]

/-- C6: for a path split by the repository-name anchor into a prefix and a
suffix, the tag is the suffix's bare file name without directories and
extension, and the link is the base URL, the repository name, the fixed
branch segment and the suffix, concatenated. -/
theorem c6_tag_and_link (path pre suf : String)
    (h : pySplit path REPO_NAME = [pre, suf]) :
    tags_and_github_link path
      = .ok ((splitext ((pathSplit suf).2)).1,
             BASE_URL ++ REPO_NAME ++ "/blob/master" ++ suf) := by
  unfold tags_and_github_link
  rw [h]

/-- C6 (witness): the claim's example path yields the tag `decision_tree`
and a link ending in `machine-learning/blob/master/trees/decision_tree.ipynb`. -/
theorem c6_witness :
    tags_and_github_link goodPath
      = .ok ("decision_tree",
        "https://github.com/ethen8181/machine-learning/blob/master/trees/decision_tree.ipynb") :=
  (c6_tag_and_link goodPath "/Users/ethen/" "/trees/decision_tree.ipynb" rfl).trans rfl

/-- C7: with the in-place toggle off, the computed output path inserts the
converted marker before the extension (and `convert` returns exactly that
path), and once `add` completes the temporary serialized file no longer
exists, whatever the external command reported; with the toggle on, the
output path is the input path, the original is overwritten, and no other
filesystem entry changes. -/
theorem c7_inplace_copy (path serialized : String) (cmdOutput : Bool) (fs : FS) :
    (outPath false path = ((splitext path).1 ++ "-converted") ++ (splitext path).2
      ∧ addFS false (outPath false path) serialized cmdOutput fs
          (outPath false path) = none
      ∧ outPath false "/a/b/c.ipynb" = "/a/b/c-converted.ipynb")
    ∧ (outPath true path = path
      ∧ addFS true path serialized cmdOutput fs path = some serialized
      ∧ ∀ q, q ≠ path → addFS true path serialized cmdOutput fs q = fs q)
    ∧ (∀ inplace dc du nb nb2 out,
        convert inplace dc du path nb = .ok (nb2, out) →
        out = outPath inplace path) := by
  refine ⟨⟨rfl, ?_, rfl⟩, ⟨rfl, ?_, ?_⟩, ?_⟩
  · simp [addFS, fsWrite, fsRemove]
  · simp [addFS, fsWrite]
  · intro q hq
    simp [addFS, fsWrite, hq]
  · intro inplace dc du nb nb2 out hok
    exact convert_out inplace dc du path nb nb2 out hok

/-- C8: a regular file whose path contains the converted marker is never
handled, notebook extension or not; and every event the traversal emits is
for a file without the marker and with the notebook extension. -/
theorem c8_skip_converted :
    (∀ conv path, containsStr path "-converted" = true →
      convert_all_posts conv path .file = [])
    ∧ (∀ conv path entry ev, ev ∈ convert_all_posts conv path entry →
      containsStr (eventPath ev) "-converted" = false
      ∧ (splitext (eventPath ev)).2 = ".ipynb") := by
  constructor
  · intro conv path h
    simp [convert_all_posts, h]
  · intro conv path entry ev hev
    exact walk_events_eligible conv entry path ev hev

/-- C9 (counterexample): a notebook whose real title precedes the
table-of-contents heading satisfies the claim's condition (some cell
matches with exactly the table-of-contents text, and no cell after it
produces another match), yet the returned title is the earlier match, not
`'Table of Contents'`. -/
theorem c9_counterexample :
    dictGet nbRealThenToc "cells"
      = .ok (.arr [mdCell "# Real Title\n", mdCell "# Table of Contents\n"])
    ∧ specCellMatch (mdCell "# Table of Contents\n") = some "Table of Contents"
    ∧ pyTitle nbRealThenToc = .ok "Real Title"
    ∧ "Real Title" ≠ "Table of Contents" :=
  ⟨rfl, rfl, rfl, by decide⟩

/-- C9 (amended): when at least one cell matches with exactly
`'Table of Contents'` and no cell anywhere produces a
non-table-of-contents match, the skipped match becomes the result: the
title returned is the literal string `'Table of Contents'`. -/
theorem c9_toc_fallthrough (nb : NbDoc) (cells : List JVal)
    (hc : dictGet nb "cells" = .ok (.arr cells))
    (hwf : wfCells cells = true)
    (hnone : specTitle cells = none)
    (htoc : hasToC cells = true) :
    pyTitle nb = .ok "Table of Contents" := by
  rw [pyTitle_eq nb cells hc hwf, hnone, htoc]
  simp

/-- C9 (witness): the amended statement where the only heading is the
table of contents. -/
theorem c9_witness : pyTitle nbOnlyToc = .ok "Table of Contents" :=
  c9_toc_fallthrough nbOnlyToc [mdCell "# Table of Contents\n", codeCell]
    rfl rfl rfl rfl

/-- C10: tag and link derivation succeeds exactly when the repository-name
anchor occurs exactly once in the path; with zero occurrences or more than
one, the two-way unpacking of the split raises a `ValueError` that aborts
that file's conversion. -/
theorem c10_anchor_count (path : String) :
    (tags_and_github_link path = .error .valueError
      ↔ countOcc path REPO_NAME ≠ 1)
    ∧ ((∃ tl, tags_and_github_link path = .ok tl)
      ↔ countOcc path REPO_NAME = 1) := by
  have hlen := pySplit_length path
  cases hsplit : pySplit path REPO_NAME with
  | nil => rw [hsplit] at hlen; simp at hlen
  | cons a l1 =>
    cases l1 with
    | nil =>
      rw [hsplit] at hlen
      simp only [List.length_cons, List.length_nil] at hlen
      have hcnt : countOcc path REPO_NAME = 0 := by omega
      unfold tags_and_github_link
      rw [hsplit, hcnt]
      refine ⟨⟨fun _ => by omega, fun _ => rfl⟩, ⟨?_, fun h => by omega⟩⟩
      rintro ⟨tl, htl⟩
      exact absurd htl (by simp)
    | cons b l2 =>
      cases l2 with
      | nil =>
        rw [hsplit] at hlen
        simp only [List.length_cons, List.length_nil] at hlen
        have hcnt : countOcc path REPO_NAME = 1 := by omega
        unfold tags_and_github_link
        rw [hsplit, hcnt]
        refine ⟨⟨fun h => absurd h (by simp), fun h => absurd rfl h⟩,
          ⟨fun _ => rfl, fun _ => ?_⟩⟩
        exact ⟨_, rfl⟩
      | cons c3 l3 =>
        rw [hsplit] at hlen
        simp only [List.length_cons] at hlen
        have hcnt : countOcc path REPO_NAME ≠ 1 := by omega
        unfold tags_and_github_link
        rw [hsplit]
        refine ⟨⟨fun _ => hcnt, fun _ => rfl⟩, ⟨?_, fun h => absurd h hcnt⟩⟩
        rintro ⟨tl, htl⟩
        exact absurd htl (by simp)
